import Mathlib

/-!
Verification of the Insight-Agent text-analysis service (`src/main.py`).

The core function `analyze_text` and the HTTP handler `analyze_endpoint` are
shallowly embedded over `List Char`.  Python's `str` operations are modelled
on their ASCII behaviour (the whitespace set of `str.split()` / `str.strip()`
and the case mapping of `str.lower()` are restricted to ASCII; every input
appearing in the claims is ASCII).  Python floats are modelled exactly as
rationals: `int / int` true division produces the nearest IEEE-754 binary64
value (`toDouble`), and `round(x, 2)` produces the 2-decimal value nearest to
that binary value (a binary64 value is never an exact 2-decimal tie, so
nearest is well defined); the result field stores that decimal as a rational,
which is what the JSON serialisation of the float prints.
-/

namespace InsightAgent

/-- ASCII whitespace, as removed by Python `str.strip()` and used as the
separator set of `str.split()` with no arguments. -/
def isWs (c : Char) : Bool :=
  c = ' ' || c = '\t' || c = '\n' || c = '\x0d' || c = '\x0b' || c = '\x0c'

/-- The characters of the strip set `'.,!?;:'` in `word.strip('.,!?;:')`
(source line 60). -/
def isPunct (c : Char) : Bool :=
  c = '.' || c = ',' || c = '!' || c = '?' || c = ';' || c = ':'

/-- The sentence-terminator class `[.!?]` of the regex on source line 50. -/
def isSentSep (c : Char) : Bool :=
  c = '.' || c = '!' || c = '?'

/-- Python `text.strip()`: remove trailing whitespace, then leading
whitespace (the two removals commute; this transcription does trailing
first so that the head of a non-empty result is a non-whitespace
character). -/
def pyStrip (l : List Char) : List Char :=
  ((l.reverse.dropWhile isWs).reverse).dropWhile isWs

/-- Python `word.strip('.,!?;:')` (source line 60): remove the punctuation
characters from both ends of a token, not from its interior. -/
def pyStripPunct (w : List Char) : List Char :=
  ((w.reverse.dropWhile isPunct).reverse).dropWhile isPunct

/-- Prepend a character to the first segment of a segment list (the
not-a-separator step shared by the splitters below). -/
def consHead (c : Char) : List (List Char) → List (List Char)
  | s :: ss => (c :: s) :: ss
  | [] => [[c]]

/-- Split a list at maximal non-empty runs of characters satisfying `p`.
This is Python `re.split(r'[.!?]+', s)` when `p` is `isSentSep` (source
line 50): a leading or trailing separator run contributes one empty
segment, but adjacent separator characters do not produce empty segments
between them. -/
def splitRunsP (p : Char → Bool) : List Char → List (List Char)
  | [] => [[]]
  | [c] => if p c then [[], []] else [[c]]
  | c₁ :: c₂ :: rest =>
    if p c₁ then
      if p c₂ then splitRunsP p (c₂ :: rest)
      else [] :: splitRunsP p (c₂ :: rest)
    else consHead c₁ (splitRunsP p (c₂ :: rest))

/-- Python `text.split()` with no arguments (source lines 45 and 59): the
maximal runs of non-whitespace characters; no empty tokens are produced. -/
def pyWords (l : List Char) : List (List Char) :=
  (splitRunsP isWs l).filter (fun s => !s.isEmpty)

/-- Python `text.split('\n\n')` (source line 54): split at non-overlapping
occurrences of the literal two-character separator, scanning left to
right. -/
def splitNN : List Char → List (List Char)
  | [] => [[]]
  | [c] => [[c]]
  | c₁ :: c₂ :: rest =>
    if c₁ = '\n' ∧ c₂ = '\n' then [] :: splitNN rest
    else consHead c₁ (splitNN (c₂ :: rest))

/-- Python `text.replace(' ', '')` (source line 47): delete every literal
ASCII space character; other whitespace is kept. -/
def pyRemoveSpaces : List Char → List Char
  | [] => []
  | c :: rest => if c = ' ' then pyRemoveSpaces rest else c :: pyRemoveSpaces rest

/-- ASCII case mapping of Python `text.lower()` (source line 66). -/
def asciiLower (c : Char) : Char :=
  if 'A' ≤ c && c ≤ 'Z' then Char.ofNat (c.toNat + 32) else c

/-- The lower-cased text `text_lower` of source line 66. -/
def lowerText (l : List Char) : List Char :=
  l.map asciiLower

/-- Python's substring test `needle in hay` for strings (source lines
67-68). -/
def containsSub (needle : List Char) : List Char → Bool
  | [] => needle.isEmpty
  | c :: rest => needle.isPrefixOf (c :: rest) || containsSub needle rest

/-- The fixed positive keyword list of source line 63. -/
def positive_words : List (List Char) :=
  ["good".data, "great".data, "excellent".data, "amazing".data,
   "love".data, "wonderful".data, "fantastic".data]

/-- The fixed negative keyword list of source line 64. -/
def negative_words : List (List Char) :=
  ["bad".data, "terrible".data, "awful".data, "hate".data,
   "horrible".data, "disgusting".data]

/-- `positive_count` of source line 67: `sum(1 for word in positive_words
if word in text_lower)`. -/
def posCount (l : List Char) : Nat :=
  List.countP (fun w => containsSub w (lowerText l)) positive_words

/-- `negative_count` of source line 68. -/
def negCount (l : List Char) : Nat :=
  List.countP (fun w => containsSub w (lowerText l)) negative_words

/-- The sentiment label computed on source lines 70-75. -/
def sentiment (l : List Char) : String :=
  if negCount l < posCount l then ("positive")
  else if posCount l < negCount l then ("negative")
  else ("neutral")

/-- Round a rational to the nearest integer, ties to even.  This is both
the binary rounding used when forming an IEEE-754 binary64 value and the
decimal rounding of Python's `round`. -/
def roundHalfEvenQ (q : ℚ) : ℤ :=
  if q - (⌊q⌋ : ℚ) < 1/2 then ⌊q⌋
  else if (1:ℚ)/2 < q - (⌊q⌋ : ℚ) then ⌊q⌋ + 1
  else if ⌊q⌋ % 2 = 0 then ⌊q⌋ else ⌊q⌋ + 1

/-- Round a rational to the nearest integer, ties upward. -/
def roundHalfUpQ (q : ℚ) : ℤ :=
  ⌊q + 1/2⌋

/-- Fuel-bounded base-2 logarithm, rounded down (structural recursion so
that it computes by unfolding). -/
def log2Fuel : Nat → Nat → Nat
  | 0, _ => 0
  | fuel + 1, n => if n ≤ 1 then 0 else log2Fuel fuel (n / 2) + 1

/-- `⌊log₂ n⌋` for `n ≥ 1` (and 0 for `n = 0`). -/
def natLog2 (n : Nat) : Nat :=
  log2Fuel n n

/-- Fuel-bounded base-2 logarithm, rounded up. -/
def clog2Fuel : Nat → Nat → Nat
  | 0, _ => 0
  | fuel + 1, n => if n ≤ 1 then 0 else clog2Fuel fuel ((n + 1) / 2) + 1

/-- `⌈log₂ n⌉` for `n ≥ 1` (and 0 for `n ≤ 1`). -/
def natClog2 (n : Nat) : Nat :=
  clog2Fuel n n

/-- The binade exponent of a positive rational: the `e` with
`2 ^ e ≤ q < 2 ^ (e + 1)`.  For `q ≥ 1` this is `⌊log₂ ⌊q⌋⌋`; for
`0 < q < 1` it is `-⌈log₂ ⌈q⁻¹⌉⌉`. -/
def ratLog2 (q : ℚ) : ℤ :=
  if 1 ≤ q then (natLog2 ⌊q⌋.toNat : ℤ) else -(natClog2 ⌈q⁻¹⌉.toNat : ℤ)

/-- The IEEE-754 binary64 value nearest to a rational: scale into the
binade, round the 53-bit significand to nearest, ties to even.  The
exponent is unbounded (no overflow or subnormal range), which is exact
for every value reachable in this program. -/
def toDouble (q : ℚ) : ℚ :=
  if q = 0 then 0
  else (roundHalfEvenQ (q * (2:ℚ) ^ ((52 : ℤ) - ratLog2 |q|)) : ℚ) /
    (2:ℚ) ^ ((52 : ℤ) - ratLog2 |q|)

/-- Python `round(x, 2)` on a binary64 value `x`, observed as the decimal
it prints: the nearest 2-decimal value (a binary64 value is never an exact
2-decimal tie). -/
def pyRound2 (x : ℚ) : ℚ :=
  (roundHalfEvenQ (x * 100) : ℚ) / 100

/-- `sum(len(word.strip('.,!?;:')) for word in words)` of source line 60. -/
def sumStripLen (ws : List (List Char)) : Nat :=
  (ws.map (fun w => (pyStripPunct w).length)).sum

/-- `avg_word_length` before rounding (source line 60):
`sum(...) / len(words) if words else 0`, with the true division producing
the nearest binary64 value. -/
def avgRaw (text : List Char) : ℚ :=
  if (pyWords text).isEmpty then 0
  else toDouble ((sumStripLen (pyWords text) : ℚ) / ((pyWords text).length : ℚ))

/-- The result dictionary of `analyze_text` (source lines 77-86), as a
fixed-shape record. -/
structure AnalysisResult where
  original_text : List Char
  word_count : Nat
  character_count : Nat
  character_count_no_spaces : Nat
  sentence_count : Nat
  paragraph_count : Nat
  avg_word_length : ℚ
  sentiment_score : String
deriving DecidableEq

instance : Inhabited AnalysisResult :=
  ⟨⟨[], 0, 0, 0, 0, 0, 0, ("neutral")⟩⟩

/-- The metric computation of `analyze_text` (source lines 44-86), i.e.
everything after the validation guard. -/
def mkResult (text : List Char) : AnalysisResult :=
  { original_text := text
    word_count := (pyWords text).length
    character_count := text.length
    character_count_no_spaces := (pyRemoveSpaces text).length
    sentence_count :=
      ((splitRunsP isSentSep (pyStrip text)).filter
        (fun s => !(pyStrip s).isEmpty)).length
    paragraph_count :=
      let pc := ((splitNN text).filter (fun p => !(pyStrip p).isEmpty)).length
      if pc = 0 then 1 else pc
    avg_word_length := pyRound2 (avgRaw text)
    sentiment_score := sentiment text }

/-- `analyze_text` (source lines 37-86): raise `ValueError("Text cannot be
empty")` when the input is empty or only whitespace (`not text or not
text.strip()`), otherwise return the metrics. -/
def analyze_text (text : List Char) : Except String AnalysisResult :=
  if text.isEmpty || (pyStrip text).isEmpty then .error ("Text cannot be empty")
  else .ok (mkResult text)

/-- The exceptions that can escape the `try` body of `analyze_endpoint`:
the `HTTPException` raised on source line 107 and the `ValueError` raised
by `analyze_text`. -/
inductive EndpointExc where
  | valueError (msg : String)
  | httpException (code : Nat) (detail : String)
deriving DecidableEq

/-- The `try` body of `analyze_endpoint` (source lines 104-112): the size
check runs first and raises `HTTPException(400, ...)`; then `analyze_text`
runs and may raise `ValueError`. -/
def endpointBody (text : List Char) : Except EndpointExc AnalysisResult :=
  if 10000 < text.length then
    .error (.httpException 400 ("Text too long. Maximum 10,000 characters allowed."))
  else
    match analyze_text text with
    | .error m => .error (.valueError m)
    | .ok r => .ok r

/-- An HTTP outcome of the POST /analyze route. -/
inductive HttpResponse where
  | success (r : AnalysisResult)
  | httpError (code : Nat) (detail : String)
deriving DecidableEq

/-- `analyze_endpoint` (source lines 98-119).  The `except` clauses are
tried in order: `except ValueError` turns a `ValueError` into a 400 with
the error's message; `except Exception` catches every other exception —
including the `HTTPException(400, "Text too long...")` raised inside the
`try` body, since `HTTPException` is an `Exception` subclass — and
replaces it with a 500 "Internal server error during analysis".  An
exception raised inside an `except` clause is not caught by the later
clauses of the same `try`. -/
def analyze_endpoint (text : List Char) : HttpResponse :=
  match endpointBody text with
  | .ok r => .success r
  | .error (.valueError m) => .httpError 400 m
  | .error (.httpException _ _) =>
    .httpError 500 ("Internal server error during analysis")

/-! Claim-level formulations, phrased after the specification's wording, to
be compared with the transcribed code above. -/

/-- Spec wording: a keyword occurs as a substring of the text — some tail
of the text starts with the keyword. -/
def occursIn (needle hay : List Char) : Bool :=
  hay.tails.any (fun t => needle.isPrefixOf t)

/-- Spec wording: how many keywords of the fixed positive list occur as
substrings of the lower-cased text (each keyword counted at most once). -/
def posOccur (l : List Char) : Nat :=
  (positive_words.filter (fun w => occursIn w (lowerText l))).length

/-- Spec wording: how many keywords of the fixed negative list occur as
substrings of the lower-cased text. -/
def negOccur (l : List Char) : Nat :=
  (negative_words.filter (fun w => occursIn w (lowerText l))).length

/-- Spec wording: the number of segments whose trimmed form is non-empty. -/
def nonBlankCount (segs : List (List Char)) : Nat :=
  List.countP (fun s => !(pyStrip s).isEmpty) segs

/-- Whether the text contains the two-character double-newline sequence. -/
def hasNN : List Char → Bool
  | [] => false
  | [_] => false
  | c₁ :: c₂ :: rest => ((c₁ = '\n') && (c₂ = '\n')) || hasNN (c₂ :: rest)

/-- Spec wording of the stripped-length sum: accumulate, over the
whitespace-split tokens, the length of each token after stripping the
punctuation set from both ends. -/
def sumStripLenSpec (ws : List (List Char)) : Nat :=
  ws.foldl (fun a w => a + (pyStripPunct w).length) 0

/-- Spec wording of the exact average word length: the stripped-length sum
divided by the token count, as an exact rational, `0` when there are no
tokens. -/
def ratAvgSpec (text : List Char) : ℚ :=
  if (pyWords text).length = 0 then 0
  else (sumStripLenSpec (pyWords text) : ℚ) / ((pyWords text).length : ℚ)

/-- Projection: the error message of a failed analysis (empty string when
the analysis succeeded). -/
def errOf (e : Except String AnalysisResult) : String :=
  match e with
  | .error m => m
  | .ok _ => ""

/-- Projection: the `avg_word_length` field of a successful analysis. -/
def avgOf (e : Except String AnalysisResult) : ℚ :=
  match e with
  | .ok r => r.avg_word_length
  | .error _ => 0

/-- Projection: the `sentence_count` field of a successful analysis (`1`
on failure, so a result of `0` can only come from a success). -/
def sentCountOf (e : Except String AnalysisResult) : Nat :=
  match e with
  | .ok r => r.sentence_count
  | .error _ => 1

/-- A 40-word text whose stripped token lengths sum to 107, so that the
exact average word length is 107/40 = 2.675, a 2-decimal tie. -/
def c6text : List Char :=
  ("aaa aaa aaa aaa aaa aaa aaa aaa aaa aaa aaa aaa aaa aaa aaa aaa aaa aaa aaa aaa aaa aaa aaa aaa aaa aaa aaa aa aa aa aa aa aa aa aa aa aa aa aa aa").data

/-! Helper lemmas. -/

/-- Every element surviving `dropWhile p` satisfies `p` exactly when every
element of the list does: the dropped prefix satisfies `p` by
construction. -/
theorem dropWhile_all_iff (p : Char → Bool) (l : List Char) :
    (∀ c ∈ l.dropWhile p, p c = true) ↔ (∀ c ∈ l, p c = true) := by
  constructor
  · intro h c hc
    rw [← List.takeWhile_append_dropWhile (p := p) (l := l)] at hc
    rcases List.mem_append.mp hc with h1 | h2
    · exact List.mem_takeWhile_imp h1
    · exact h c h2
  · intro h c hc
    exact h c ((List.dropWhile_sublist p).subset hc)

/-- Trimming yields the empty list exactly when every character is
whitespace. -/
theorem pyStrip_eq_nil_iff (l : List Char) :
    pyStrip l = [] ↔ ∀ c ∈ l, isWs c = true := by
  unfold pyStrip
  rw [List.dropWhile_eq_nil_iff]
  constructor
  · intro h c hc
    have h' : ∀ c ∈ l.reverse.dropWhile isWs, isWs c = true :=
      fun c hc => h c (List.mem_reverse.mpr hc)
    exact ((dropWhile_all_iff isWs l.reverse).mp h') c (List.mem_reverse.mpr hc)
  · intro h c hc
    have h1 : c ∈ l.reverse.dropWhile isWs := List.mem_reverse.mp hc
    exact h c (List.mem_reverse.mp ((List.dropWhile_sublist isWs).subset h1))

/-- The head of a `dropWhile p` result does not satisfy `p`. -/
theorem head?_dropWhile (p : Char → Bool) :
    ∀ (l : List Char) {c : Char}, (l.dropWhile p).head? = some c → p c = false := by
  intro l
  induction l with
  | nil => intro c h; simp [List.dropWhile] at h
  | cons a t ih =>
    intro c h
    by_cases hp : p a = true
    · rw [List.dropWhile_cons_of_pos hp] at h
      exact ih h
    · rw [List.dropWhile_cons_of_neg hp] at h
      have : a = c := by simpa using h
      subst this
      exact Bool.eq_false_iff.mpr hp

/-- A character of the trimmed text is a character of the text. -/
theorem mem_of_mem_pyStrip {c : Char} {l : List Char} (h : c ∈ pyStrip l) :
    c ∈ l := by
  unfold pyStrip at h
  have h1 := (List.dropWhile_sublist isWs).subset h
  have h2 := List.mem_reverse.mp h1
  have h3 := (List.dropWhile_sublist isWs).subset h2
  exact List.mem_reverse.mp h3

/-- A non-empty trimmed text is still non-empty after trimming again (its
head is a non-whitespace character). -/
theorem pyStrip_pyStrip_ne_nil {l : List Char} (h : pyStrip l ≠ []) :
    pyStrip (pyStrip l) ≠ [] := by
  intro hnil
  cases hm : pyStrip l with
  | nil => exact h hm
  | cons c rest =>
    have hc : isWs c = false := by
      unfold pyStrip at hm
      exact head?_dropWhile isWs ((l.reverse.dropWhile isWs).reverse)
        (by rw [hm]; rfl)
    have hmem : c ∈ pyStrip l := by rw [hm]; exact List.mem_cons_self c rest
    have := (pyStrip_eq_nil_iff (pyStrip l)).mp hnil c hmem
    rw [hc] at this
    exact Bool.false_ne_true this

/-- Prepending to the first segment keeps the segment list non-empty. -/
theorem consHead_ne_nil (c : Char) (L : List (List Char)) : consHead c L ≠ [] := by
  cases L <;> simp [consHead]

/-- Prepending to the first segment of a non-empty segment list prepends
to the concatenation. -/
theorem consHead_flatten (c : Char) (L : List (List Char)) (h : L ≠ []) :
    (consHead c L).flatten = c :: L.flatten := by
  cases L with
  | nil => exact absurd rfl h
  | cons s ss => simp [consHead]

/-- The run-splitter always produces at least one segment. -/
theorem splitRunsP_ne_nil (p : Char → Bool) : ∀ (l : List Char), splitRunsP p l ≠ [] := by
  intro l
  induction l with
  | nil => simp [splitRunsP]
  | cons a t ih =>
    cases t with
    | nil => by_cases hp : p a = true <;> simp [splitRunsP, hp]
    | cons b t' =>
      by_cases hp : p a = true
      · by_cases hq : p b = true
        · simpa [splitRunsP, hp, hq] using ih
        · simp [splitRunsP, hp, hq]
      · simp only [splitRunsP]
        rw [if_neg hp]
        exact consHead_ne_nil a (splitRunsP p (b :: t'))

/-- A list with no separator characters is a single segment. -/
theorem splitRunsP_of_all_not (p : Char → Bool) :
    ∀ (l : List Char), (∀ c ∈ l, p c = false) → splitRunsP p l = [l] := by
  intro l
  induction l with
  | nil => intro _; rfl
  | cons a t ih =>
    intro h
    have ha : p a = false := h a (List.mem_cons_self a t)
    cases t with
    | nil => simp [splitRunsP, ha]
    | cons b t' =>
      have ht : splitRunsP p (b :: t') = [b :: t'] :=
        ih (fun c hc => h c (List.mem_cons_of_mem a hc))
      simp [splitRunsP, ha, ht, consHead]

/-- Concatenating the segments of the run-splitter recovers exactly the
non-separator characters. -/
theorem splitRunsP_flatten (p : Char → Bool) :
    ∀ (l : List Char), (splitRunsP p l).flatten = l.filter (fun c => !p c) := by
  intro l
  induction l with
  | nil => rfl
  | cons a t ih =>
    cases t with
    | nil => by_cases hp : p a = true <;> simp [splitRunsP, hp, List.filter]
    | cons b t' =>
      by_cases hp : p a = true
      · by_cases hq : p b = true
        · simpa [splitRunsP, hp, hq, List.filter_cons] using ih
        · simpa [splitRunsP, hp, hq, List.filter_cons] using ih
      · have hpa : p a = false := Bool.eq_false_iff.mpr hp
        have hnot : (!p a) = true := by rw [hpa]; rfl
        simp only [splitRunsP]
        rw [if_neg hp,
          consHead_flatten a (splitRunsP p (b :: t')) (splitRunsP_ne_nil p (b :: t')),
          ih]
        simp [List.filter_cons, hpa]

/-- Duplicating a separator character does not change the run-splitting:
the longer run separates the same segments. -/
theorem splitRunsP_dup (p : Char → Bool) {c : Char} (hc : p c = true) :
    ∀ (xs ys : List Char),
      splitRunsP p (xs ++ c :: ys) = splitRunsP p (xs ++ c :: c :: ys) := by
  intro xs
  induction xs with
  | nil =>
    intro ys
    simp only [List.nil_append]
    simp only [splitRunsP]
    simp [hc]
  | cons a xs' ih =>
    intro ys
    cases xs' with
    | nil =>
      simp only [List.nil_append, List.cons_append]
      simp only [splitRunsP]
      simp [hc]
    | cons b xs'' =>
      have h0 := ih ys
      simp only [List.cons_append] at h0 ⊢
      simp only [splitRunsP]
      rw [h0]

/-- Empty segments contribute nothing to the concatenation. -/
theorem flatten_filter_nonempty :
    ∀ (L : List (List Char)), (L.filter (fun s => !s.isEmpty)).flatten = L.flatten := by
  intro L
  induction L with
  | nil => rfl
  | cons s t ih =>
    cases s with
    | nil => simpa [List.filter_cons] using ih
    | cons x s' => simp [List.filter_cons, ih]

/-- A text without the double-newline sequence is a single paragraph
segment. -/
theorem splitNN_of_not_hasNN :
    ∀ (l : List Char), hasNN l = false → splitNN l = [l] := by
  intro l
  induction l with
  | nil => intro _; rfl
  | cons a t ih =>
    cases t with
    | nil => intro _; rfl
    | cons b t' =>
      intro h
      have h' := h
      unfold hasNN at h'
      rw [Bool.or_eq_false_iff] at h'
      have h1 : ¬(a = '\n' ∧ b = '\n') := by
        intro ⟨ha, hb⟩
        rw [ha, hb] at h'
        simp at h'
      have ht : splitNN (b :: t') = [b :: t'] := ih h'.2
      simp only [splitNN]
      rw [if_neg h1, ht]
      rfl

/-- The validation guard: `analyze_text` succeeds, with the computed
metrics, on every input whose trimmed form is non-empty. -/
theorem analyze_ok_of_nonblank {text : List Char} (h : pyStrip text ≠ []) :
    analyze_text text = .ok (mkResult text) := by
  unfold analyze_text
  have h1 : (pyStrip text).isEmpty = false := by
    cases hm : pyStrip text with
    | nil => exact absurd hm h
    | cons _ _ => rfl
  have h2 : text.isEmpty = false := by
    cases text with
    | nil => exact absurd rfl h
    | cons _ _ => rfl
  rw [h1, h2]
  simp

/-- Conversely, a successful analysis means the trimmed input was
non-empty and the result is the computed metrics. -/
theorem analyze_ok_elim {text : List Char} {r : AnalysisResult}
    (h : analyze_text text = .ok r) :
    pyStrip text ≠ [] ∧ r = mkResult text := by
  unfold analyze_text at h
  by_cases hg : (text.isEmpty || (pyStrip text).isEmpty) = true
  · rw [if_pos hg] at h
    exact absurd h (by simp)
  · rw [if_neg hg] at h
    refine ⟨?_, (Except.ok.inj h).symm⟩
    intro hnil
    exact hg (by simp [hnil])

/-- `replace(' ', '')` keeps exactly the non-space characters. -/
theorem pyRemoveSpaces_eq_filter :
    ∀ (l : List Char), pyRemoveSpaces l = l.filter (fun c => c != ' ') := by
  intro l
  induction l with
  | nil => rfl
  | cons c t ih =>
    by_cases hc : c = ' '
    · subst hc
      simp [pyRemoveSpaces, ih, List.filter_cons]
    · simp [pyRemoveSpaces, hc, ih, List.filter_cons]

/-- A non-blank text has at least one word. -/
theorem pyWords_ne_nil {l : List Char} (h : pyStrip l ≠ []) : pyWords l ≠ [] := by
  intro hw
  apply h
  rw [pyStrip_eq_nil_iff]
  intro c hc
  by_contra hws
  have hws' : isWs c = false := by
    revert hws
    cases isWs c <;> simp
  have hmem : c ∈ (splitRunsP isWs l).flatten := by
    rw [splitRunsP_flatten isWs l]
    exact List.mem_filter.mpr ⟨hc, by rw [hws']; rfl⟩
  unfold pyWords at hw
  have hall : ∀ s ∈ splitRunsP isWs l, s = [] := by
    intro s hs
    have := List.filter_eq_nil_iff.mp hw s hs
    simpa using this
  rw [List.flatten_eq_nil_iff.mpr hall] at hmem
  exact List.not_mem_nil c hmem

/-- The transcription of Python's `in` agrees with the tails-based
substring formulation of the specification. -/
theorem containsSub_eq_occursIn (n : List Char) :
    ∀ (h : List Char), containsSub n h = occursIn n h := by
  intro h
  induction h with
  | nil =>
    unfold occursIn
    cases n <;> simp [containsSub, List.isPrefixOf]
  | cons c t ih =>
    unfold occursIn at ih ⊢
    simp only [containsSub, List.tails, List.any_cons]
    rw [ih]

/-- `isPrefixOf` is transitive. -/
theorem isPrefixOf_trans :
    ∀ (c a b : List Char), a.isPrefixOf b = true → b.isPrefixOf c = true →
      a.isPrefixOf c = true := by
  intro c
  induction c with
  | nil =>
    intro a b hab hbc
    cases b with
    | nil =>
      cases a with
      | nil => exact hab
      | cons _ _ => simp [List.isPrefixOf] at hab
    | cons _ _ => simp [List.isPrefixOf] at hbc
  | cons x cs ih =>
    intro a b hab hbc
    cases a with
    | nil => simp [List.isPrefixOf]
    | cons y as =>
      cases b with
      | nil => simp [List.isPrefixOf] at hab
      | cons z bs =>
        simp only [List.isPrefixOf, Bool.and_eq_true, beq_iff_eq] at hab hbc ⊢
        exact ⟨hab.1.trans hbc.1, ih as bs hab.2 hbc.2⟩

/-- If `a` is a prefix of `b`, any text containing `b` contains `a`. -/
theorem containsSub_of_isPrefixOf {a b : List Char} (hab : a.isPrefixOf b = true) :
    ∀ (h : List Char), containsSub b h = true → containsSub a h = true := by
  intro h
  induction h with
  | nil =>
    intro hb
    simp only [containsSub, List.isEmpty_iff] at hb ⊢
    subst hb
    cases a with
    | nil => rfl
    | cons _ _ => simp [List.isPrefixOf] at hab
  | cons c t ih =>
    intro hb
    simp only [containsSub, Bool.or_eq_true] at hb ⊢
    rcases hb with hb1 | hb2
    · exact Or.inl (isPrefixOf_trans _ _ _ hab hb1)
    · exact Or.inr (ih hb2)

/-- Folding the stripped lengths equals summing them. -/
theorem foldl_add_eq_sum (f : List Char → Nat) :
    ∀ (ws : List (List Char)) (a : Nat),
      ws.foldl (fun acc w => acc + f w) a = a + (ws.map f).sum := by
  intro ws
  induction ws with
  | nil => intro a; simp
  | cons w t ih =>
    intro a
    simp only [List.foldl_cons, List.map_cons, List.sum_cons, ih]
    omega

/-- The spec's accumulated stripped-length sum equals the transcribed
one. -/
theorem sumStripLenSpec_eq (ws : List (List Char)) :
    sumStripLenSpec ws = sumStripLen ws := by
  unfold sumStripLenSpec sumStripLen
  rw [foldl_add_eq_sum]
  simp

/-- The pre-rounding average of the code is the binary64 value of the
spec's exact rational average. -/
theorem avgRaw_eq_toDouble_ratAvgSpec (text : List Char) :
    avgRaw text = toDouble (ratAvgSpec text) := by
  unfold avgRaw ratAvgSpec
  by_cases hw : (pyWords text).isEmpty = true
  · have h0 : pyWords text = [] := List.isEmpty_iff.mp hw
    rw [if_pos hw, h0]
    simp [toDouble]
  · have h0 : pyWords text ≠ [] := by
      intro hh
      exact hw (by rw [hh]; rfl)
    have h1 : (pyWords text).length ≠ 0 := by
      intro hh
      exact h0 (List.length_eq_zero.mp hh)
    rw [if_neg hw, if_neg h1, sumStripLenSpec_eq]

/-- The source's keyword count (line 67) equals the spec's
filtered-occurrence count, positive list. -/
theorem posCount_eq_posOccur (l : List Char) : posCount l = posOccur l := by
  unfold posCount posOccur
  rw [← List.countP_eq_length_filter]
  have : (fun w => containsSub w (lowerText l)) = (fun w => occursIn w (lowerText l)) :=
    funext (fun w => containsSub_eq_occursIn w (lowerText l))
  rw [this]

/-- The source's keyword count (line 68) equals the spec's
filtered-occurrence count, negative list. -/
theorem negCount_eq_negOccur (l : List Char) : negCount l = negOccur l := by
  unfold negCount negOccur
  rw [← List.countP_eq_length_filter]
  have : (fun w => containsSub w (lowerText l)) = (fun w => occursIn w (lowerText l)) :=
    funext (fun w => containsSub_eq_occursIn w (lowerText l))
  rw [this]

/-! Claim theorems. -/

/-- Claim C1: `sentiment_score` is determined by counting which keywords of
the fixed positive and negative lists occur as substrings of the
lower-cased text (each keyword at most once): `positive` exactly when the
positive count is strictly greater, `negative` exactly when the negative
count is strictly greater, `neutral` exactly when they are equal; matching
is by substring, so a text containing `badge` counts the keyword `bad`. -/
theorem c1_sentiment_keyword_counts (text : List Char) (r : AnalysisResult)
    (h : analyze_text text = .ok r) :
    (r.sentiment_score = "positive" ↔ negOccur text < posOccur text) ∧
    (r.sentiment_score = "negative" ↔ posOccur text < negOccur text) ∧
    (r.sentiment_score = "neutral" ↔ posOccur text = negOccur text) ∧
    (containsSub ("badge".data) (lowerText text) = true → 0 < negOccur text) := by
  obtain ⟨-, hr⟩ := analyze_ok_elim h
  subst hr
  have hbad : containsSub ("badge".data) (lowerText text) = true → 0 < negOccur text := by
    intro hb
    have h1 : ("bad".data).isPrefixOf ("badge".data) = true := by decide
    have h2 := containsSub_of_isPrefixOf h1 (lowerText text) hb
    rw [← negCount_eq_negOccur]
    unfold negCount
    exact List.countP_pos_iff.mpr ⟨"bad".data, by decide, h2⟩
  have hmain : ((sentiment text) = "positive" ↔ negCount text < posCount text) ∧
      ((sentiment text) = "negative" ↔ posCount text < negCount text) ∧
      ((sentiment text) = "neutral" ↔ posCount text = negCount text) := by
    unfold sentiment
    rcases Nat.lt_trichotomy (posCount text) (negCount text) with hlt | heq | hgt
    · rw [if_neg (by omega), if_pos hlt]
      refine ⟨⟨fun hh => absurd hh (by decide), fun hh => by omega⟩,
        ⟨fun _ => hlt, fun _ => rfl⟩,
        ⟨fun hh => absurd hh (by decide), fun hh => by omega⟩⟩
    · rw [if_neg (by omega), if_neg (by omega)]
      refine ⟨⟨fun hh => absurd hh (by decide), fun hh => by omega⟩,
        ⟨fun hh => absurd hh (by decide), fun hh => by omega⟩,
        ⟨fun _ => heq, fun _ => rfl⟩⟩
    · rw [if_pos hgt]
      refine ⟨⟨fun _ => hgt, fun _ => rfl⟩,
        ⟨fun hh => absurd hh (by decide), fun hh => by omega⟩,
        ⟨fun hh => absurd hh (by decide), fun hh => by omega⟩⟩
  rw [posCount_eq_posOccur, negCount_eq_negOccur] at hmain
  have hs : (mkResult text).sentiment_score = sentiment text := rfl
  rw [hs]
  exact ⟨hmain.1, hmain.2.1, hmain.2.2, hbad⟩

/-- Witness for C1 at the text `it is great`: one positive keyword occurs
and no negative keyword does, so the label is `positive`. -/
theorem c1_witness : (mkResult ("it is great".data)).sentiment_score = "positive" :=
  (c1_sentiment_keyword_counts ("it is great".data) (mkResult ("it is great".data)) rfl).1.mpr
    (by decide)

/-- Claim C2 (counterexample): on the empty input, `analyze_text` does fail
before computing any metric, but the `ValueError` message is
`Text cannot be empty` (capital `T`), not `text cannot be empty` as the
claim states. -/
theorem c2_counterexample :
    (analyze_text []).isOk = false ∧
    errOf (analyze_text []) = "Text cannot be empty" ∧
    ¬ errOf (analyze_text []) = "text cannot be empty" := by
  decide

/-- Claim C2 (amended): `analyze_text` fails, with the single message
`Text cannot be empty`, exactly when the input trimmed of whitespace is
empty; on every other input it succeeds (no validation error). -/
theorem c2_validation_amended (text : List Char) :
    (analyze_text text = .error ("Text cannot be empty") ↔ pyStrip text = []) ∧
    (pyStrip text ≠ [] → analyze_text text = .ok (mkResult text)) := by
  refine ⟨⟨?_, ?_⟩, analyze_ok_of_nonblank⟩
  · intro h
    by_contra hne
    rw [analyze_ok_of_nonblank hne] at h
    exact absurd h (by simp)
  · intro h
    have hh : (pyStrip text).isEmpty = true := by rw [h]; rfl
    unfold analyze_text
    simp [hh]

/-- Witness for C2 (amended): the whitespace-only input fails with the
message, and a two-letter input succeeds. -/
theorem c2_witness :
    analyze_text ("   ".data) = .error ("Text cannot be empty") ∧
    analyze_text ("hi".data) = .ok (mkResult ("hi".data)) :=
  ⟨(c2_validation_amended ("   ".data)).1.mpr (by decide),
   (c2_validation_amended ("hi".data)).2 (by decide)⟩

/-- Claim C9: `analyze_text` is a total function of its input (the
embedding is a pure function, so determinism and freedom from hidden
state hold by construction); on every non-blank input it returns a result
whose `original_text` is the input, unmodified. -/
theorem c9_purity_echo (text : List Char) (h : pyStrip text ≠ []) :
    analyze_text text = .ok (mkResult text) ∧ (mkResult text).original_text = text :=
  ⟨analyze_ok_of_nonblank h, rfl⟩

/-- Witness for C9 at the input `Hello`. -/
theorem c9_witness :
    analyze_text ("Hello".data) = .ok (mkResult ("Hello".data)) ∧
    (mkResult ("Hello".data)).original_text = "Hello".data :=
  c9_purity_echo ("Hello".data) (by decide)

/-- Claim C10 (counterexample): the input `.` passes validation (its
trimmed form is non-empty) yet its `sentence_count` is 0, not at least 1:
splitting `.` on the punctuation run leaves only blank segments. -/
theorem c10_counterexample :
    (analyze_text (".".data)).isOk = true ∧
    sentCountOf (analyze_text (".".data)) = 0 := by
  decide

/-- Claim C10 (amended): every validated input has at least one word, so
the zero-words branch of the average computation is unreachable and the
division is safe; `sentence_count`, however, can be 0 (e.g. on `.`). -/
theorem c10_safety_amended (text : List Char) (r : AnalysisResult)
    (h : analyze_text text = .ok r) :
    1 ≤ r.word_count ∧ pyWords text ≠ [] := by
  obtain ⟨hnb, hr⟩ := analyze_ok_elim h
  subst hr
  have hw := pyWords_ne_nil hnb
  constructor
  · show 1 ≤ (pyWords text).length
    have := List.length_pos.mpr hw
    omega
  · exact hw

/-- Witness for C10 (amended) at the input `x`. -/
theorem c10_witness :
    1 ≤ (mkResult ("x".data)).word_count ∧ pyWords ("x".data) ≠ [] :=
  c10_safety_amended ("x".data) (mkResult ("x".data)) rfl

/-- Claim C3 (code bug): on a 10,001-character input the endpoint does
reject before invoking the analyzer, but with a 500 response
`Internal server error during analysis`, not the claimed 400
`Text too long. Maximum 10,000 characters allowed.` — the
`HTTPException(400, ...)` raised inside the `try` body is caught by the
blanket `except Exception` clause (the repository's own test expects the
400).  `analyze_text` itself has no length limit and succeeds on the same
input; a short input flows through the endpoint normally. -/
theorem c3_gateway_length_code_bug :
    analyze_endpoint (List.replicate 10001 'a') =
      .httpError 500 ("Internal server error during analysis") ∧
    (analyze_text (List.replicate 10001 'a')).isOk = true ∧
    analyze_endpoint ("ok text".data) = .success (mkResult ("ok text".data)) := by
  have hlen : (List.replicate 10001 'a').length = 10001 :=
    List.length_replicate 10001 'a'
  have hnb : pyStrip (List.replicate 10001 'a') ≠ [] := by
    intro h
    have := (pyStrip_eq_nil_iff (List.replicate 10001 'a')).mp h 'a'
      (List.mem_replicate.mpr ⟨by omega, rfl⟩)
    exact absurd this (by decide)
  refine ⟨?_, ?_, ?_⟩
  · unfold analyze_endpoint endpointBody
    rw [hlen, if_pos (by omega)]
  · rw [analyze_ok_of_nonblank hnb]
    rfl
  · rfl

/-- Claim C4: `sentence_count` is the number of segments with non-empty
trimmed form when the trimmed text is split on maximal runs of `.`, `!`,
`?`; for a text containing none of those characters it is 1. -/
theorem c4_sentence_count (text : List Char) (r : AnalysisResult)
    (h : analyze_text text = .ok r) :
    r.sentence_count = nonBlankCount (splitRunsP isSentSep (pyStrip text)) ∧
    ((∀ c ∈ text, isSentSep c = false) → r.sentence_count = 1) := by
  obtain ⟨hnb, hr⟩ := analyze_ok_elim h
  subst hr
  have hfield : (mkResult text).sentence_count =
      ((splitRunsP isSentSep (pyStrip text)).filter
        (fun s => !(pyStrip s).isEmpty)).length := rfl
  constructor
  · rw [hfield]
    unfold nonBlankCount
    rw [List.countP_eq_length_filter]
  · intro hno
    rw [hfield]
    have hstrip : ∀ c ∈ pyStrip text, isSentSep c = false :=
      fun c hc => hno c (mem_of_mem_pyStrip hc)
    rw [splitRunsP_of_all_not isSentSep (pyStrip text) hstrip]
    have h2 : (pyStrip (pyStrip text)).isEmpty = false := by
      cases hm : pyStrip (pyStrip text) with
      | nil => exact absurd hm (pyStrip_pyStrip_ne_nil hnb)
      | cons _ _ => rfl
    simp [List.filter_cons, h2]

/-- Witness for C4 at a text with no sentence terminators. -/
theorem c4_witness : (mkResult ("no separators here".data)).sentence_count = 1 :=
  (c4_sentence_count ("no separators here".data)
    (mkResult ("no separators here".data)) rfl).2 (by decide)

/-- Claim C5: `paragraph_count` is the number of segments with non-empty
trimmed form when the text is split on the literal double newline, with a
fallback to 1 when that number is 0; it is always at least 1, and equals
exactly 1 for a text containing no double newline. -/
theorem c5_paragraph_count (text : List Char) (r : AnalysisResult)
    (h : analyze_text text = .ok r) :
    (r.paragraph_count =
      if nonBlankCount (splitNN text) = 0 then 1 else nonBlankCount (splitNN text)) ∧
    1 ≤ r.paragraph_count ∧
    (hasNN text = false → r.paragraph_count = 1) := by
  obtain ⟨hnb, hr⟩ := analyze_ok_elim h
  subst hr
  have hfield : (mkResult text).paragraph_count =
      (if ((splitNN text).filter (fun s => !(pyStrip s).isEmpty)).length = 0 then 1
       else ((splitNN text).filter (fun s => !(pyStrip s).isEmpty)).length) := rfl
  have hcount : nonBlankCount (splitNN text) =
      ((splitNN text).filter (fun s => !(pyStrip s).isEmpty)).length := by
    unfold nonBlankCount
    exact List.countP_eq_length_filter _ _
  refine ⟨?_, ?_, ?_⟩
  · rw [hfield, hcount]
  · rw [hfield]
    by_cases h0 : ((splitNN text).filter (fun s => !(pyStrip s).isEmpty)).length = 0
    · rw [if_pos h0]
    · rw [if_neg h0]
      omega
  · intro hno
    rw [hfield, splitNN_of_not_hasNN text hno]
    have h2 : (pyStrip text).isEmpty = false := by
      cases hm : pyStrip text with
      | nil => exact absurd hm hnb
      | cons _ _ => rfl
    simp [List.filter_cons, h2]

/-- Witness for C5 at a single-paragraph text. -/
theorem c5_witness : (mkResult ("one paragraph".data)).paragraph_count = 1 :=
  (c5_paragraph_count ("one paragraph".data)
    (mkResult ("one paragraph".data)) rfl).2.2 (by decide)

/-- Claim C6 (counterexample): on the 40-word text `c6text` the exact
average word length is 107/40 = 2.675, whose round-half-even and
round-half-up 2-decimal values are both 2.68, yet the code returns 2.67:
Python divides in binary64 arithmetic, and the binary64 value nearest to
2.675 is strictly below it, so `round` resolves the decimal tie
downward. -/
theorem c6_counterexample :
    (analyze_text c6text).isOk = true ∧
    avgOf (analyze_text c6text) = 267/100 ∧
    ratAvgSpec c6text = 107/40 ∧
    roundHalfEvenQ (((107:ℚ)/40) * 100) = 268 ∧
    roundHalfUpQ (((107:ℚ)/40) * 100) = 268 ∧
    ¬ ((267:ℚ)/100 = 268/100) := by
  have hok : analyze_text c6text = .ok (mkResult c6text) :=
    analyze_ok_of_nonblank (by decide)
  have hw : (pyWords c6text).length = 40 := by decide
  have hs : sumStripLen (pyWords c6text) = 107 := by decide
  have hwe : (pyWords c6text).isEmpty = false := by decide
  have hlog : ratLog2 ((107:ℚ)/40) = 1 := by
    have hfl : ⌊(107:ℚ)/40⌋ = 2 := by
      rw [Int.floor_eq_iff]
      norm_num
    unfold ratLog2
    rw [if_pos (by norm_num : (1:ℚ) ≤ 107/40), hfl]
    decide
  have habs : |(107:ℚ)/40| = 107/40 := abs_of_pos (by norm_num)
  have hexp : ((52:ℤ) - 1) = 51 := by norm_num
  have hq1 : (107:ℚ)/40 * (2:ℚ) ^ ((51:ℤ)) = 30117822508040192/5 := by
    norm_num
  have hfl2 : ⌊(30117822508040192:ℚ)/5⌋ = 6023564501608038 := by
    rw [Int.floor_eq_iff]
    norm_num
  have e2 : roundHalfEvenQ ((107:ℚ)/40 * (2:ℚ) ^ ((51:ℤ))) = 6023564501608038 := by
    unfold roundHalfEvenQ
    rw [hq1, hfl2]
    norm_num
  have e1 : toDouble ((107:ℚ)/40) = 6023564501608038/2251799813685248 := by
    unfold toDouble
    rw [if_neg (by norm_num : ¬((107:ℚ)/40 = 0)), habs, hlog, hexp, e2]
    norm_num
  have havg : avgRaw c6text = toDouble ((107:ℚ)/40) := by
    unfold avgRaw
    rw [hwe, hs, hw]
    norm_num
  have hrat : ratAvgSpec c6text = 107/40 := by
    unfold ratAvgSpec
    rw [hw, sumStripLenSpec_eq, hs]
    norm_num
  have e3 : pyRound2 ((6023564501608038:ℚ)/2251799813685248) = 267/100 := by
    have hx : (6023564501608038:ℚ)/2251799813685248 * 100 =
        602356450160803800/2251799813685248 := by
      norm_num
    have hfl3 : ⌊(602356450160803800:ℚ)/2251799813685248⌋ = 267 := by
      rw [Int.floor_eq_iff]
      norm_num
    unfold pyRound2 roundHalfEvenQ
    rw [hx, hfl3]
    norm_num
  have h268 : roundHalfEvenQ (((107:ℚ)/40) * 100) = 268 := by
    have hx : ((107:ℚ)/40) * 100 = 535/2 := by norm_num
    have hfl4 : ⌊(535:ℚ)/2⌋ = 267 := by
      rw [Int.floor_eq_iff]
      norm_num
    unfold roundHalfEvenQ
    rw [hx, hfl4]
    norm_num
  have h268u : roundHalfUpQ (((107:ℚ)/40) * 100) = 268 := by
    have hx : ((107:ℚ)/40) * 100 + 1/2 = 268 := by norm_num
    unfold roundHalfUpQ
    rw [hx, Int.floor_eq_iff]
    norm_num
  refine ⟨by rw [hok]; rfl, ?_, hrat, h268, h268u, by norm_num⟩
  have hproj : avgOf (analyze_text c6text) = pyRound2 (avgRaw c6text) := by
    rw [hok]
    rfl
  rw [hproj, havg, e1]
  exact e3

/-- Claim C6 (amended): `avg_word_length` is obtained by stripping each
whitespace-split token of leading/trailing `.,!?;:`, summing the stripped
lengths, dividing by the token count (0 when there are none), converting
the quotient to the nearest IEEE-754 binary64 value, and rounding that
value — not the exact quotient — to the nearest 2-decimal value; on exact
2-decimal ties of the quotient the result can differ from both decimal
round-half-even and round-half-up. -/
theorem c6_avg_word_length_amended (text : List Char) (r : AnalysisResult)
    (h : analyze_text text = .ok r) :
    r.avg_word_length = (roundHalfEvenQ (toDouble (ratAvgSpec text) * 100) : ℚ) / 100 ∧
    ((pyWords text).length = 0 → ratAvgSpec text = 0) := by
  obtain ⟨-, hr⟩ := analyze_ok_elim h
  subst hr
  constructor
  · have hfield : (mkResult text).avg_word_length = pyRound2 (avgRaw text) := rfl
    rw [hfield, avgRaw_eq_toDouble_ratAvgSpec]
    rfl
  · intro h0
    unfold ratAvgSpec
    rw [if_pos h0]

/-- Witness for C6 (amended) at the input `ab cd`. -/
theorem c6_witness :
    (mkResult ("ab cd".data)).avg_word_length =
      (roundHalfEvenQ (toDouble (ratAvgSpec ("ab cd".data)) * 100) : ℚ) / 100 :=
  (c6_avg_word_length_amended ("ab cd".data) (mkResult ("ab cd".data)) rfl).1

/-- Claim C7: `word_count` counts the maximal non-whitespace runs (their
concatenation is exactly the non-whitespace content, in order), so
duplicating an existing whitespace character leaves `word_count` unchanged
while it increases `character_count` by one. -/
theorem c7_word_count_whitespace_invariance (xs ys : List Char) (c : Char)
    (hc : isWs c = true) (r r2 : AnalysisResult)
    (h1 : analyze_text (xs ++ c :: ys) = .ok r)
    (h2 : analyze_text (xs ++ c :: c :: ys) = .ok r2) :
    r.word_count = r2.word_count ∧
    r.character_count + 1 = r2.character_count ∧
    (pyWords (xs ++ c :: ys)).flatten =
      (xs ++ c :: ys).filter (fun a => !isWs a) := by
  obtain ⟨-, hr1⟩ := analyze_ok_elim h1
  obtain ⟨-, hr2⟩ := analyze_ok_elim h2
  subst hr1
  subst hr2
  refine ⟨?_, ?_, ?_⟩
  · show (pyWords (xs ++ c :: ys)).length = (pyWords (xs ++ c :: c :: ys)).length
    unfold pyWords
    rw [splitRunsP_dup isWs hc xs ys]
  · show (xs ++ c :: ys).length + 1 = (xs ++ c :: c :: ys).length
    simp only [List.length_append, List.length_cons]
    omega
  · unfold pyWords
    rw [flatten_filter_nonempty, splitRunsP_flatten]

/-- Witness for C7 at `a b` versus `a  b`: both have two words, the
character counts differ by one. -/
theorem c7_witness :
    (mkResult ("a".data ++ ' ' :: "b".data)).word_count =
      (mkResult ("a".data ++ ' ' :: ' ' :: "b".data)).word_count ∧
    (mkResult ("a".data ++ ' ' :: "b".data)).character_count + 1 =
      (mkResult ("a".data ++ ' ' :: ' ' :: "b".data)).character_count ∧
    (pyWords ("a".data ++ ' ' :: "b".data)).flatten =
      ("a".data ++ ' ' :: "b".data).filter (fun a => !isWs a) :=
  c7_word_count_whitespace_invariance ("a".data) ("b".data) ' ' (by decide)
    (mkResult ("a".data ++ ' ' :: "b".data))
    (mkResult ("a".data ++ ' ' :: ' ' :: "b".data)) rfl rfl

/-- Claim C8: `character_count` is the number of characters of the input,
untrimmed, and `character_count_no_spaces` is the number of characters
left after deleting only the literal ASCII space character (tabs and
newlines are kept). -/
theorem c8_character_counts (text : List Char) (r : AnalysisResult)
    (h : analyze_text text = .ok r) :
    r.character_count = text.length ∧
    r.character_count_no_spaces = (text.filter (fun a => a != ' ')).length := by
  obtain ⟨-, hr⟩ := analyze_ok_elim h
  subst hr
  refine ⟨rfl, ?_⟩
  show (pyRemoveSpaces text).length = (text.filter (fun a => a != ' ')).length
  rw [pyRemoveSpaces_eq_filter]

/-- Witness for C8 at `Hello world!`: 12 characters, 11 without the
space. -/
theorem c8_witness :
    (mkResult ("Hello world!".data)).character_count = ("Hello world!".data).length ∧
    (mkResult ("Hello world!".data)).character_count_no_spaces =
      (("Hello world!".data).filter (fun a => a != ' ')).length ∧
    (mkResult ("Hello world!".data)).character_count = 12 ∧
    (mkResult ("Hello world!".data)).character_count_no_spaces = 11 := by
  have h := c8_character_counts ("Hello world!".data) (mkResult ("Hello world!".data)) rfl
  exact ⟨h.1, h.2, by decide, by decide⟩

end InsightAgent
